import Mathlib

/-!
Verification of the resource-relationship resolution engine of
`kubernetes-grapth.py` (a Kubernetes cluster graph visualizer).

The Python source is shallowly embedded: each resource record becomes a
structure whose fields mirror the attributes the script reads; optional
attributes (those the script guards with `or []` / `or {}`, or reads
unguarded) become `Option` fields, with Python `None` as `none`.  Python
dictionaries become association lists (last binding wins, as in a dict
built left to right).  A resolver that can raise a Python exception is
embedded as a function returning the list of edges emitted before the
exception together with an `Option String` error (`none` = normal
completion), since `dot.edge` calls made before a raise have already
happened.
-/

namespace K8sGraph

/-- Python `str.split(c)` on the character list of a string: splits at every
occurrence of `c`, keeping empty segments, and returns `[[]]` on the empty
string, exactly as `''.split('-') == ['']` in Python. -/
def splitOnChar (c : Char) : List Char → List (List Char)
  | [] => [[]]
  | x :: xs =>
    match splitOnChar c xs with
    | [] => [[]]
    | y :: ys => if x = c then [] :: y :: ys else (x :: y) :: ys

/-- Python `c.join(segments)` on character lists. -/
def joinChar (c : Char) : List (List Char) → List Char
  | [] => []
  | [x] => x
  | x :: y :: ys => x ++ c :: joinChar c (y :: ys)

/-- `'-'.join(name.split('-')[:-1])` — the generated-suffix stripping used at
line 107 of `kubernetes-grapth.py` to recover a controller name. -/
def stripGeneratedSuffix (s : String) : String :=
  ⟨joinChar '-' ((splitOnChar '-' s.data).dropLast)⟩

/-- The identity scheme: every node id in the script is built by the f-string
`f"{prefix}-{namespace}/{name}"`. -/
def nodeId (kind ns name : String) : String :=
  kind ++ "-" ++ ns ++ "/" ++ name

/-- Characters of `l` after the first occurrence of `c` (used only to parse a
namespace back out of a node id when stating namespace isolation). -/
def afterFirst (c : Char) : List Char → List Char
  | [] => []
  | x :: xs => if x = c then xs else afterFirst c xs

/-- Characters of `l` before the first occurrence of `c`. -/
def beforeFirst (c : Char) : List Char → List Char
  | [] => []
  | x :: xs => if x = c then [] else x :: beforeFirst c xs

/-- The namespace component of a node id `"<kind>-<ns>/<name>"`: the text
after the first `-` and before the following `/`. -/
def idNamespace (id : String) : String :=
  ⟨beforeFirst '/' (afterFirst '-' id.data)⟩

/-- Python dict lookup on an association list; a dict built left to right
keeps the last binding of a key, hence the `reverse`. -/
def dictGet {β : Type} (l : List (String × β)) (k : String) : Option β :=
  (l.reverse.find? (fun p => p.1 == k)).map (fun p => p.2)

/-- One entry of `metadata.owner_references`. -/
structure OwnerRef where
  kind : String
  name : String
  uid : String
deriving DecidableEq, Repr

/-- `metadata` of a Kubernetes object: the fields the script reads.
`ns` stands for the Python attribute `namespace` (a Lean keyword).
`labels` and `owner_references` are optional in the API and are exactly the
fields the script guards with `or {}` / `or []`. -/
structure Meta where
  ns : String
  name : String
  uid : String
  labels : Option (List (String × String))
  owner_references : Option (List OwnerRef)
deriving DecidableEq, Repr

/-- A Service port's `target_port` is int-or-string in the Kubernetes API;
Python `==` between an int and a str is `False`, mirrored by the two
constructors being distinct. -/
inductive PortRef where
  | num (n : Nat)
  | named (s : String)
deriving DecidableEq, Repr

structure ServicePort where
  target_port : PortRef
deriving DecidableEq, Repr

/-- `spec` of a Service: `selector` is optional (guarded by `or {}` at line
123); `ports` is optional in the API but read unguarded at line 143. -/
structure ServiceSpec where
  selector : Option (List (String × String))
  ports : Option (List ServicePort)
deriving DecidableEq, Repr

structure Service where
  metadata : Meta
  spec : ServiceSpec
deriving DecidableEq, Repr

structure ContainerPort where
  container_port : Nat
deriving DecidableEq, Repr

/-- A container; `ports` is optional and guarded by `or []` at line 149. -/
structure Container where
  ports : Option (List ContainerPort)
deriving DecidableEq, Repr

structure PodSpec where
  containers : List Container
deriving DecidableEq, Repr

structure Pod where
  metadata : Meta
  spec : PodSpec
deriving DecidableEq, Repr

structure BackendService where
  name : String
deriving DecidableEq, Repr

structure PathBackend where
  service : BackendService
deriving DecidableEq, Repr

/-- One HTTP path entry of an Ingress rule (`path.path`,
`path.backend.service.name` at lines 164-165). -/
structure HTTPPathEntry where
  path : String
  backend : PathBackend
deriving DecidableEq, Repr

structure HTTPBlock where
  paths : List HTTPPathEntry
deriving DecidableEq, Repr

/-- An Ingress rule; `http` is optional in the API but read unguarded at
line 163 (`rule.http.paths`). -/
structure IngressRule where
  http : Option HTTPBlock
deriving DecidableEq, Repr

/-- `spec` of an Ingress; `rules` is guarded by `or []` at line 162. -/
structure IngressSpec where
  rules : Option (List IngressRule)
deriving DecidableEq, Repr

structure Ingress where
  metadata : Meta
  spec : IngressSpec
deriving DecidableEq, Repr

structure Job where
  metadata : Meta
deriving DecidableEq, Repr

structure CronJob where
  metadata : Meta
deriving DecidableEq, Repr

/-- A plain resource of which the script only reads `metadata`
(Deployment, StatefulSet, DaemonSet). -/
structure KObj where
  metadata : Meta
deriving DecidableEq, Repr

/-- A `dot.node(...)` call: id, display label, shape, fill color. -/
structure GraphNode where
  id : String
  label : String
  shape : String
  color : String
deriving DecidableEq, Repr

/-- A `dot.edge(tail, head, label=...)` call: `src` is the tail (first
positional argument), `dst` the head. -/
structure Edge where
  src : String
  dst : String
  label : String
deriving DecidableEq, Repr

/-- The eight resource collections fetched in `main`. -/
structure Snapshot where
  deployments : List KObj
  statefulsets : List KObj
  daemonsets : List KObj
  pods : List Pod
  services : List Service
  ingresses : List Ingress
  jobs : List Job
  cronjobs : List CronJob
deriving DecidableEq, Repr

def podId (pod : Pod) : String := nodeId "Pod" pod.metadata.ns pod.metadata.name

def svcId (svc : Service) : String := nodeId "Service" svc.metadata.ns svc.metadata.name

def ingressId (ing : Ingress) : String := nodeId "Ingress" ing.metadata.ns ing.metadata.name

def jobId (job : Job) : String := nodeId "Job" job.metadata.ns job.metadata.name

def cronJobId (cj : CronJob) : String := nodeId "CronJob" cj.metadata.ns cj.metadata.name

/-- `add_nodes` (lines 87-94): one `dot.node` per object, id
`f"{prefix}-{namespace}/{name}"`, label `f"{prefix}\n{name}"`.  The Python
function is duck-typed over any object with `metadata`; the embedding takes
the metadata projection as an argument. -/
def add_nodes {α : Type} (items : List α) (metadata : α → Meta)
    (shape color pfx : String) : List GraphNode :=
  items.map (fun obj =>
    { id := nodeId pfx (metadata obj).ns (metadata obj).name
      label := pfx ++ "\n" ++ (metadata obj).name
      shape := shape
      color := color })

/-- The eight `add_nodes` calls of `main` (lines 208-215), in source order. -/
def materialize (snap : Snapshot) : List GraphNode :=
  add_nodes snap.deployments (fun o => o.metadata) "folder" "lightblue" "Deployment"
    ++ add_nodes snap.statefulsets (fun o => o.metadata) "cylinder" "lightcoral" "StatefulSet"
    ++ add_nodes snap.daemonsets (fun o => o.metadata) "box3d" "lightyellow" "DaemonSet"
    ++ add_nodes snap.pods (fun o => o.metadata) "oval" "white" "Pod"
    ++ add_nodes snap.services (fun o => o.metadata) "box" "orange" "Service"
    ++ add_nodes snap.ingresses (fun o => o.metadata) "hexagon" "lightgreen" "Ingress"
    ++ add_nodes snap.jobs (fun o => o.metadata) "diamond" "plum" "Job"
    ++ add_nodes snap.cronjobs (fun o => o.metadata) "parallelogram" "lightgrey" "CronJob"

/-- The snapshot's resources as (kind string, metadata) pairs, in the same
collection order as `materialize`. -/
def snapRefs (snap : Snapshot) : List (String × Meta) :=
  snap.deployments.map (fun o => ("Deployment", o.metadata))
    ++ snap.statefulsets.map (fun o => ("StatefulSet", o.metadata))
    ++ snap.daemonsets.map (fun o => ("DaemonSet", o.metadata))
    ++ snap.pods.map (fun o => ("Pod", o.metadata))
    ++ snap.services.map (fun o => ("Service", o.metadata))
    ++ snap.ingresses.map (fun o => ("Ingress", o.metadata))
    ++ snap.jobs.map (fun o => ("Job", o.metadata))
    ++ snap.cronjobs.map (fun o => ("CronJob", o.metadata))

/-- Inner loop of `link_owner_to_pods` (lines 105-110): the edges this one
Pod contributes.  `base = '-'.join(owner.name.split('-')[:-1])`; the owner id
uses `base` unless the target kind is `'Job'`, in which case the name is used
exactly. -/
def ownerEdgesForPod (owner_kind label pfx : String) (pod : Pod) : List Edge :=
  (pod.metadata.owner_references.getD []).filterMap (fun owner =>
    if owner.kind == owner_kind then
      some { src := if owner_kind != "Job"
                    then nodeId pfx pod.metadata.ns (stripGeneratedSuffix owner.name)
                    else nodeId pfx pod.metadata.ns owner.name
             dst := podId pod
             label := label }
    else none)

/-- `link_owner_to_pods` (lines 99-110). -/
def link_owner_to_pods (pods : List Pod) (owner_kind label pfx : String) : List Edge :=
  pods.flatMap (ownerEdgesForPod owner_kind label pfx)

/-- The pass-1 match test (lines 126-130): same namespace, and
`selector and all(labels.get(k) == v for k, v in selector.items())`. -/
def selectorMatches (selector labels : List (String × String)) : Bool :=
  !selector.isEmpty && selector.all (fun kv => dictGet labels kv.1 == some kv.2)

def podMatchesSelector (svc : Service) (pod : Pod) : Bool :=
  pod.metadata.ns == svc.metadata.ns
    && selectorMatches (svc.spec.selector.getD []) (pod.metadata.labels.getD [])

/-- Whether at least one pod matches the Service's selector in pass 1. -/
def svcMatched (svc : Service) (pods : List Pod) : Bool :=
  pods.any (podMatchesSelector svc)

/-- Pass 1 of `link_services_to_pods` (lines 121-134): per Service, per
matching Pod, emit an edge labeled `svc` and append the Service to
`svc_linked` (so `svc_linked` holds one copy per matched pod). -/
def servicesPass1 : List Service → List Pod → List Edge × List Service
  | [], _ => ([], [])
  | svc :: rest, pods =>
    let hits := pods.filter (podMatchesSelector svc)
    let r := servicesPass1 rest pods
    (hits.map (fun pod => ⟨svcId svc, podId pod, "svc"⟩) ++ r.1,
     hits.map (fun _ => svc) ++ r.2)

/-- Inner loops of pass 2 (lines 144-153): edges of one Service against all
pods by container-port membership in its target-port list. -/
def fallbackEdgesForService (svc : Service) (ports : List PortRef) (pods : List Pod) : List Edge :=
  pods.flatMap (fun pod =>
    if pod.metadata.ns == svc.metadata.ns then
      pod.spec.containers.flatMap (fun container =>
        (container.ports.getD []).filterMap (fun p =>
          if PortRef.num p.container_port ∈ ports then
            some ⟨svcId svc, podId pod, "svc"⟩
          else none))
    else [])

/-- Pass 2 of `link_services_to_pods` (lines 136-153): skip Services that are
members of `svc_linked` (Python `in`, which is value equality on these
records); `ports = [p.target_port for p in svc.spec.ports]` raises a
`TypeError` when `spec.ports` is `None`, aborting the loop — edges already
emitted stay emitted. -/
def servicesPass2 : List Service → List Service → List Pod → List Edge × Option String
  | [], _, _ => ([], none)
  | svc :: rest, linked, pods =>
    if svc ∈ linked then servicesPass2 rest linked pods
    else
      match svc.spec.ports with
      | none => ([], some "TypeError: NoneType object is not iterable")
      | some sps =>
        let es := fallbackEdgesForService svc (sps.map (fun p => p.target_port)) pods
        let r := servicesPass2 rest linked pods
        (es ++ r.1, r.2)

/-- `link_services_to_pods` (lines 113-153): pass 1 then pass 2. -/
def link_services_to_pods (services : List Service) (pods : List Pod) :
    List Edge × Option String :=
  let p1 := servicesPass1 services pods
  let p2 := servicesPass2 services p1.2 pods
  (p1.1 ++ p2.1, p2.2)

/-- Inner loop of `link_ingresses_to_services` (lines 162-166) over the rules
of one Ingress: `rule.http.paths` raises an `AttributeError` when `rule.http`
is `None`, aborting the loop. -/
def ingressRulesEdges (ing_id ns : String) : List IngressRule → List Edge × Option String
  | [] => ([], none)
  | rule :: rest =>
    match rule.http with
    | none => ([], some "AttributeError: NoneType has no attribute paths")
    | some http =>
      let es := http.paths.map (fun p =>
        ⟨ing_id, nodeId "Service" ns p.backend.service.name, p.path⟩)
      let r := ingressRulesEdges ing_id ns rest
      (es ++ r.1, r.2)

/-- `link_ingresses_to_services` (lines 156-166). -/
def link_ingresses_to_services : List Ingress → List Edge × Option String
  | [] => ([], none)
  | ing :: rest =>
    let r := ingressRulesEdges (ingressId ing) ing.metadata.ns (ing.spec.rules.getD [])
    match r.2 with
    | some e => (r.1, some e)
    | none =>
      let rs := link_ingresses_to_services rest
      (r.1 ++ rs.1, rs.2)

/-- The uid-to-node-id dict of line 173. -/
def cronIds (cronjobs : List CronJob) : List (String × String) :=
  cronjobs.map (fun cj => (cj.metadata.uid, cronJobId cj))

/-- Inner loop of `link_cronjobs_to_jobs` (lines 174-179): the edges one Job
contributes, one per owner reference of kind `CronJob` whose uid is a key of
the dict. -/
def cronEdgesForJob (cron_ids : List (String × String)) (job : Job) : List Edge :=
  (job.metadata.owner_references.getD []).filterMap (fun owner =>
    if owner.kind == "CronJob" then
      match dictGet cron_ids owner.uid with
      | some cid => some ⟨cid, jobId job, "schedule"⟩
      | none => none
    else none)

/-- `link_cronjobs_to_jobs` (lines 169-179). -/
def link_cronjobs_to_jobs (jobs : List Job) (cronjobs : List CronJob) : List Edge :=
  jobs.flatMap (cronEdgesForJob (cronIds cronjobs))

/-- All edges emitted by the four resolver calls of `main` (lines 218-224),
in source order; for the two resolvers that can raise, the edges emitted
before the exception. -/
def allLinkEdges (snap : Snapshot) : List Edge :=
  link_owner_to_pods snap.pods "ReplicaSet" "replica" "Deployment"
    ++ link_owner_to_pods snap.pods "StatefulSet" "replica" "StatefulSet"
    ++ link_owner_to_pods snap.pods "DaemonSet" "daemon" "DaemonSet"
    ++ link_owner_to_pods snap.pods "Job" "job" "Job"
    ++ (link_services_to_pods snap.services snap.pods).1
    ++ (link_ingresses_to_services snap.ingresses).1
    ++ link_cronjobs_to_jobs snap.jobs snap.cronjobs

/-- Transcription of spec §4.4(c): "For each Ingress, for each rule, for each
HTTP path entry, emit an edge from the Ingress node to
`nodeId(Service, ingress.namespace, path.backendServiceName)` labeled with
the literal HTTP path string."  Used to compare the code's resolver against
the spec's wording. -/
def ingressEdgesSpec (ingresses : List Ingress) : List Edge :=
  ingresses.flatMap (fun ing =>
    (ing.spec.rules.getD []).flatMap (fun rule =>
      (rule.http.getD ⟨[]⟩).paths.map (fun p =>
        ⟨ingressId ing, nodeId "Service" ing.metadata.ns p.backend.service.name, p.path⟩)))

/-! ### Concrete instances used by witnesses and counterexamples -/

/-- Metadata with no labels and no owner references. -/
def plainMeta (ns name uid : String) : Meta := ⟨ns, name, uid, none, none⟩

/-- A Pod labeled `app=x, env=prod` exposing container port 8080, ns `ns`. -/
def wPodA : Pod :=
  ⟨⟨"ns", "p1", "u1", some [("app", "x"), ("env", "prod")], none⟩, ⟨[⟨some [⟨8080⟩]⟩]⟩⟩

/-- A Pod in a different namespace `other`, also exposing port 8080. -/
def wPodB : Pod := ⟨⟨"other", "p2", "u2", none, none⟩, ⟨[⟨some [⟨8080⟩]⟩]⟩⟩

/-- A Service in ns `ns` with selector `app=x` and target port 8080: its
selector matches `wPodA`, and its port also numerically matches both pods. -/
def wSvcSel : Service := ⟨plainMeta "ns" "s1" "u3", ⟨some [("app", "x")], some [⟨.num 8080⟩]⟩⟩

/-- A Service in ns `ns` with an absent selector and target port 8080. -/
def wSvcPort : Service := ⟨plainMeta "ns" "s2" "u4", ⟨none, some [⟨.num 8080⟩]⟩⟩

/-- A Service with absent selector and absent ports list. -/
def wSvcNoPorts : Service := ⟨plainMeta "ns" "s3" "u5", ⟨none, none⟩⟩

/-- A Service with absent selector whose only target port is the named port
`"http"`. -/
def wSvcNamed : Service := ⟨plainMeta "ns" "s4" "u6", ⟨none, some [⟨.named "http"⟩]⟩⟩

/-- A Pod owned by ReplicaSet `web-7d8f9c9b6` (the spec's §4.4(a) example). -/
def wPodRS : Pod :=
  ⟨⟨"ns", "web-7d8f9c9b6-abcde", "u7", none, some [⟨"ReplicaSet", "web-7d8f9c9b6", "u8"⟩]⟩, ⟨[]⟩⟩

/-- A Pod owned by Job `backup-job` (names match exactly, no stripping). -/
def wPodJob : Pod :=
  ⟨⟨"ns", "backup-job-xyz", "u9", none, some [⟨"Job", "backup-job", "u10"⟩]⟩, ⟨[]⟩⟩

/-- A Pod with no owner references at all. -/
def wPodBare : Pod := ⟨plainMeta "ns" "bare" "u11", ⟨[]⟩⟩

/-- A Pod owned by a StatefulSet whose name `web` contains no hyphen. -/
def wPodNoHyphen : Pod :=
  ⟨⟨"ns", "web-0", "u12", none, some [⟨"StatefulSet", "web", "u13"⟩]⟩, ⟨[]⟩⟩

/-- An Ingress with one rule holding paths `/api -> api-svc` and
`/web -> web-svc`. -/
def wIng : Ingress :=
  ⟨plainMeta "ns" "i1" "u14",
   ⟨some [⟨some ⟨[⟨"/api", ⟨⟨"api-svc"⟩⟩⟩, ⟨"/web", ⟨⟨"web-svc"⟩⟩⟩]⟩⟩]⟩⟩

/-- An Ingress whose single rule has an absent `http` block. -/
def wIngNoHttp : Ingress := ⟨plainMeta "ns" "i2" "u15", ⟨some [⟨none⟩]⟩⟩

/-- A CronJob with uid `cj-uid-1`. -/
def wCron : CronJob := ⟨plainMeta "ns" "nightly" "cj-uid-1"⟩

/-- A Job owned (by uid) by `wCron`. -/
def wJobOwned : Job := ⟨⟨"ns", "nightly-123", "u16", none, some [⟨"CronJob", "nightly", "cj-uid-1"⟩]⟩⟩

/-- A Job whose CronJob owner reference uid matches no known CronJob. -/
def wJobOrphan : Job := ⟨⟨"ns", "old-456", "u17", none, some [⟨"CronJob", "gone", "cj-uid-9"⟩]⟩⟩

/-- A Job in namespace `nsb` owned by uid of a CronJob living in `nsa`:
the input refuting namespace isolation for the CronJob resolver. -/
def xJobCross : Job := ⟨⟨"nsb", "j1", "u18", none, some [⟨"CronJob", "cj", "cj-uid-2"⟩]⟩⟩

def xCronCross : CronJob := ⟨plainMeta "nsa" "cj" "cj-uid-2"⟩

/-- Snapshot whose only content is the cross-namespace CronJob/Job pair. -/
def xSnapCross : Snapshot := ⟨[], [], [], [], [], [], [xJobCross], [xCronCross]⟩

/-- Two Pods with distinct `(kind, namespace, name)` triples whose node ids
collide because one namespace contains a slash: `(Pod, "a", "b/c")` and
`(Pod, "a/b", "c")` both map to `"Pod-a/b/c"`. -/
def xPodSlash1 : Pod := ⟨plainMeta "a" "b/c" "u19", ⟨[]⟩⟩

def xPodSlash2 : Pod := ⟨plainMeta "a/b" "c" "u20", ⟨[]⟩⟩

def xSnapSlash : Snapshot := ⟨[], [], [], [xPodSlash1, xPodSlash2], [], [], [], []⟩

/-- A small well-formed snapshot exercising all eight collections. -/
def wSnap : Snapshot :=
  ⟨[⟨plainMeta "ns" "web" "d1"⟩], [⟨plainMeta "ns" "db" "d2"⟩], [⟨plainMeta "ns" "log" "d3"⟩],
   [wPodA, wPodRS], [wSvcSel], [wIng], [wJobOwned], [wCron]⟩

/-! ### Helper lemmas -/

theorem data_append (a b : String) : (a ++ b).data = a.data ++ b.data := rfl

theorem data_nodeId (k ns n : String) :
    (nodeId k ns n).data = k.data ++ '-' :: (ns.data ++ '/' :: n.data) := by
  simp [nodeId, data_append]

/-- Splitting a concatenation at a separator character occurring in neither
part recovers the parts. -/
theorem append_cons_inj {c : Char} :
    ∀ {a a' b b' : List Char}, c ∉ a → c ∉ a' →
      a ++ c :: b = a' ++ c :: b' → a = a' ∧ b = b'
  | [], [], _, _, _, _, h => ⟨rfl, by simpa using h⟩
  | [], x' :: xs', _, _, _, ha', h => by
    simp only [List.nil_append, List.cons_append, List.cons.injEq] at h
    exact absurd (h.1 ▸ List.mem_cons_self x' xs') ha'
  | x :: xs, [], _, _, ha, _, h => by
    simp only [List.cons_append, List.nil_append, List.cons.injEq] at h
    exact absurd (h.1 ▸ List.mem_cons_self x xs) ha
  | x :: xs, x' :: xs', b, b', ha, ha', h => by
    simp only [List.cons_append, List.cons.injEq] at h
    have ih := append_cons_inj (fun hm => ha (List.mem_cons_of_mem x hm))
      (fun hm => ha' (List.mem_cons_of_mem x' hm)) h.2
    exact ⟨by rw [h.1, ih.1], ih.2⟩

/-- The identity scheme separates its components: as long as the kind part is
hyphen-free and the namespace part slash-free, equal ids force equal
components. -/
theorem nodeId_inj {k1 k2 ns1 ns2 n1 n2 : String}
    (hk1 : '-' ∉ k1.data) (hk2 : '-' ∉ k2.data)
    (hn1 : '/' ∉ ns1.data) (hn2 : '/' ∉ ns2.data)
    (h : nodeId k1 ns1 n1 = nodeId k2 ns2 n2) :
    k1 = k2 ∧ ns1 = ns2 ∧ n1 = n2 := by
  have hd := congrArg String.data h
  rw [data_nodeId, data_nodeId] at hd
  obtain ⟨hka, hrest⟩ := append_cons_inj hk1 hk2 hd
  obtain ⟨hnsa, hna⟩ := append_cons_inj hn1 hn2 hrest
  exact ⟨congrArg String.mk hka, congrArg String.mk hnsa, congrArg String.mk hna⟩

theorem afterFirst_append {c : Char} :
    ∀ {a : List Char}, c ∉ a → ∀ b, afterFirst c (a ++ c :: b) = b
  | [], _, b => by simp [afterFirst]
  | x :: xs, ha, b => by
    have hx : ¬(x = c) := fun h => ha (h ▸ List.mem_cons_self x xs)
    simp only [List.cons_append, afterFirst, if_neg hx]
    exact afterFirst_append (fun hm => ha (List.mem_cons_of_mem x hm)) b

theorem beforeFirst_not_mem {c : Char} :
    ∀ {a : List Char}, c ∉ a → beforeFirst c a = a
  | [], _ => rfl
  | x :: xs, ha => by
    have hx : ¬(x = c) := fun h => ha (h ▸ List.mem_cons_self x xs)
    simp only [beforeFirst, if_neg hx]
    rw [beforeFirst_not_mem (fun hm => ha (List.mem_cons_of_mem x hm))]

/-- `beforeFirst c` applied past a guaranteed occurrence of `c` does not
depend on what follows that occurrence. -/
theorem beforeFirst_indep {c : Char} :
    ∀ (a b b' : List Char), beforeFirst c (a ++ c :: b) = beforeFirst c (a ++ c :: b')
  | [], _, _ => by simp [beforeFirst]
  | x :: xs, b, b' => by
    by_cases hx : x = c
    · simp [beforeFirst, hx]
    · show beforeFirst c (x :: (xs ++ c :: b)) = beforeFirst c (x :: (xs ++ c :: b'))
      simp only [beforeFirst, if_neg hx]
      exact congrArg (fun l => x :: l) (beforeFirst_indep xs b b')

/-- Two node ids with hyphen-free kinds and a common namespace component
parse to the same namespace, whatever their names. -/
theorem idNamespace_nodeId_eq {k1 k2 : String} (ns n1 n2 : String)
    (hk1 : '-' ∉ k1.data) (hk2 : '-' ∉ k2.data) :
    idNamespace (nodeId k1 ns n1) = idNamespace (nodeId k2 ns n2) := by
  simp only [idNamespace, data_nodeId, afterFirst_append hk1, afterFirst_append hk2]
  rw [beforeFirst_indep ns.data n1.data n2.data]

theorem beforeFirst_append_cons {c : Char} :
    ∀ {a : List Char}, c ∉ a → ∀ b, beforeFirst c (a ++ c :: b) = a
  | [], _, b => by simp [beforeFirst]
  | x :: xs, ha, b => by
    have hx : ¬(x = c) := fun h => ha (h ▸ List.mem_cons_self x xs)
    show beforeFirst c (x :: (xs ++ c :: b)) = x :: xs
    simp only [beforeFirst, if_neg hx]
    exact congrArg (fun l => x :: l)
      (beforeFirst_append_cons (fun hm => ha (List.mem_cons_of_mem x hm)) b)

/-- With a hyphen-free kind and slash-free namespace, `idNamespace` recovers
the namespace component. -/
theorem idNamespace_nodeId {k : String} (ns n : String)
    (hk : '-' ∉ k.data) (hns : '/' ∉ ns.data) :
    idNamespace (nodeId k ns n) = ns := by
  simp only [idNamespace, data_nodeId, afterFirst_append hk,
    beforeFirst_append_cons hns]

theorem splitOnChar_not_mem {c : Char} :
    ∀ {l : List Char}, c ∉ l → splitOnChar c l = [l]
  | [], _ => rfl
  | x :: xs, hl => by
    have hx : ¬(x = c) := fun h => hl (h ▸ List.mem_cons_self x xs)
    simp only [splitOnChar, splitOnChar_not_mem (fun hm => hl (List.mem_cons_of_mem x hm)),
      if_neg hx]

/-- An owner name containing no hyphen strips to the empty string. -/
theorem stripGeneratedSuffix_no_hyphen {s : String} (h : '-' ∉ s.data) :
    stripGeneratedSuffix s = "" := by
  simp [stripGeneratedSuffix, splitOnChar_not_mem h, joinChar]

theorem dictGet_eq_none_iff {β : Type} (l : List (String × β)) (k : String) :
    dictGet l k = none ↔ ∀ p ∈ l, p.1 ≠ k := by
  simp [dictGet, List.find?_eq_none]

theorem dictGet_mem {β : Type} {l : List (String × β)} {k : String} {v : β}
    (h : dictGet l k = some v) : (k, v) ∈ l := by
  simp only [dictGet, Option.map_eq_some'] at h
  obtain ⟨p, hp, hv⟩ := h
  have hmem := List.mem_reverse.mp (List.mem_of_find?_eq_some hp)
  have hk := List.find?_some hp
  have hk1 : p.1 = k := by simpa using hk
  have : p = (k, v) := by
    cases p
    simp only [Prod.mk.injEq]
    exact ⟨hk1, hv⟩
  exact this ▸ hmem

theorem dictGet_isSome_of_mem {β : Type} {l : List (String × β)} {k : String} {v : β}
    (h : (k, v) ∈ l) : ∃ v', dictGet l k = some v' := by
  have : (l.reverse.find? (fun p => p.1 == k)).isSome := by
    rw [List.find?_isSome]
    exact ⟨(k, v), List.mem_reverse.mpr h, by simp⟩
  obtain ⟨p, hp⟩ := Option.isSome_iff_exists.mp this
  exact ⟨p.2, by simp [dictGet, hp]⟩

/-! ### Pass 1 of the Service resolver -/

theorem mem_pass1_linked {svc : Service} :
    ∀ {services : List Service} {pods : List Pod},
      svc ∈ (servicesPass1 services pods).2 ↔ svc ∈ services ∧ svcMatched svc pods = true
  | [], pods => by simp [servicesPass1]
  | s :: rest, pods => by
    simp only [servicesPass1, List.mem_append, List.mem_map, List.mem_filter, List.mem_cons]
    constructor
    · rintro (⟨pod, ⟨hpod, hmatch⟩, rfl⟩ | hrec)
      · exact ⟨Or.inl rfl, List.any_eq_true.mpr ⟨pod, hpod, hmatch⟩⟩
      · have := mem_pass1_linked.mp hrec
        exact ⟨Or.inr this.1, this.2⟩
    · rintro ⟨rfl | hmem, hmatched⟩
      · obtain ⟨pod, hpod, hm⟩ := List.any_eq_true.mp hmatched
        exact Or.inl ⟨pod, ⟨hpod, hm⟩, rfl⟩
      · exact Or.inr (mem_pass1_linked.mpr ⟨hmem, hmatched⟩)

theorem mem_pass1_edges_of {svc : Service} {pod : Pod} :
    ∀ {services : List Service} {pods : List Pod},
      svc ∈ services → pod ∈ pods → podMatchesSelector svc pod = true →
      Edge.mk (svcId svc) (podId pod) "svc" ∈ (servicesPass1 services pods).1
  | [], _, hs, _, _ => absurd hs (List.not_mem_nil svc)
  | s :: rest, pods, hs, hpod, hm => by
    simp only [servicesPass1, List.mem_append, List.mem_map, List.mem_filter]
    rcases List.mem_cons.mp hs with rfl | hmem
    · exact Or.inl ⟨pod, ⟨hpod, hm⟩, rfl⟩
    · exact Or.inr (mem_pass1_edges_of hmem hpod hm)

theorem mem_pass1_edges_elim {e : Edge} :
    ∀ {services : List Service} {pods : List Pod},
      e ∈ (servicesPass1 services pods).1 →
      ∃ svc ∈ services, ∃ pod ∈ pods, podMatchesSelector svc pod = true ∧
        e = Edge.mk (svcId svc) (podId pod) "svc"
  | [], _, h => absurd h (List.not_mem_nil e)
  | s :: rest, pods, h => by
    simp only [servicesPass1, List.mem_append, List.mem_map, List.mem_filter] at h
    rcases h with ⟨pod, ⟨hpod, hm⟩, rfl⟩ | hrec
    · exact ⟨s, List.mem_cons_self s rest, pod, hpod, hm, rfl⟩
    · obtain ⟨svc, hsvc, pod, hpod, hm, he⟩ := mem_pass1_edges_elim hrec
      exact ⟨svc, List.mem_cons_of_mem s hsvc, pod, hpod, hm, he⟩

/-! ### Pass 2 of the Service resolver -/

theorem mem_fallbackEdges_iff {e : Edge} {svc : Service} {ports : List PortRef}
    {pods : List Pod} :
    e ∈ fallbackEdgesForService svc ports pods ↔
      ∃ pod ∈ pods, pod.metadata.ns = svc.metadata.ns ∧
        (∃ c ∈ pod.spec.containers, ∃ p ∈ c.ports.getD [],
          PortRef.num p.container_port ∈ ports) ∧
        e = Edge.mk (svcId svc) (podId pod) "svc" := by
  simp only [fallbackEdgesForService, List.mem_flatMap]
  constructor
  · rintro ⟨pod, hpod, hin⟩
    by_cases hns : pod.metadata.ns == svc.metadata.ns
    · rw [if_pos hns] at hin
      simp only [List.mem_flatMap, List.mem_filterMap] at hin
      obtain ⟨c, hc, p, hp, hsome⟩ := hin
      by_cases hport : PortRef.num p.container_port ∈ ports
      · rw [if_pos hport] at hsome
        exact ⟨pod, hpod, by simpa using hns, ⟨c, hc, p, hp, hport⟩,
          (Option.some_inj.mp hsome).symm⟩
      · rw [if_neg hport] at hsome
        simp at hsome
    · rw [if_neg hns] at hin
      exact absurd hin (List.not_mem_nil e)
  · rintro ⟨pod, hpod, hns, ⟨c, hc, p, hp, hport⟩, rfl⟩
    refine ⟨pod, hpod, ?_⟩
    rw [if_pos (by simpa using hns)]
    simp only [List.mem_flatMap, List.mem_filterMap]
    exact ⟨c, hc, p, hp, by rw [if_pos hport]⟩

theorem mem_pass2_elim {e : Edge} :
    ∀ {services linked : List Service} {pods : List Pod},
      e ∈ (servicesPass2 services linked pods).1 →
      ∃ svc ∈ services, svc ∉ linked ∧ ∃ sps, svc.spec.ports = some sps ∧
        e ∈ fallbackEdgesForService svc (sps.map (fun p => p.target_port)) pods
  | [], _, _, h => absurd h (List.not_mem_nil e)
  | s :: rest, linked, pods, h => by
    by_cases hl : s ∈ linked
    · rw [servicesPass2, if_pos hl] at h
      obtain ⟨svc, hsvc, hnl, sps, hsps, hmem⟩ := mem_pass2_elim h
      exact ⟨svc, List.mem_cons_of_mem s hsvc, hnl, sps, hsps, hmem⟩
    · rw [servicesPass2, if_neg hl] at h
      cases hsp : s.spec.ports with
      | none => rw [hsp] at h; exact absurd h (List.not_mem_nil e)
      | some sps =>
        rw [hsp] at h
        simp only [List.mem_append] at h
        rcases h with hmem | hrec
        · exact ⟨s, List.mem_cons_self s rest, hl, sps, hsp, hmem⟩
        · obtain ⟨svc, hsvc, hnl, sps2, hsps, hmem⟩ := mem_pass2_elim hrec
          exact ⟨svc, List.mem_cons_of_mem s hsvc, hnl, sps2, hsps, hmem⟩

theorem mem_pass2_of {e : Edge} {svc : Service} {sps : List ServicePort} :
    ∀ {services linked : List Service} {pods : List Pod},
      (∀ s ∈ services, s.spec.ports ≠ none) →
      svc ∈ services → svc ∉ linked → svc.spec.ports = some sps →
      e ∈ fallbackEdgesForService svc (sps.map (fun p => p.target_port)) pods →
      e ∈ (servicesPass2 services linked pods).1
  | [], _, _, _, hs, _, _, _ => absurd hs (List.not_mem_nil svc)
  | s :: rest, linked, pods, hall, hs, hnl, hsp, hmem => by
    rcases List.mem_cons.mp hs with rfl | hsmem
    · rw [servicesPass2, if_neg hnl, hsp]
      exact List.mem_append_left _ hmem
    · by_cases hl : s ∈ linked
      · rw [servicesPass2, if_pos hl]
        exact mem_pass2_of (fun x hx => hall x (List.mem_cons_of_mem s hx)) hsmem hnl hsp hmem
      · rw [servicesPass2, if_neg hl]
        cases hsp2 : s.spec.ports with
        | none => exact absurd hsp2 (hall s (List.mem_cons_self s rest))
        | some sps2 =>
          exact List.mem_append_right _
            (mem_pass2_of (fun x hx => hall x (List.mem_cons_of_mem s hx)) hsmem hnl hsp hmem)

theorem pass2_err_none :
    ∀ {services linked : List Service} {pods : List Pod},
      (∀ s ∈ services, s.spec.ports ≠ none) →
      (servicesPass2 services linked pods).2 = none
  | [], _, _, _ => rfl
  | s :: rest, linked, pods, hall => by
    by_cases hl : s ∈ linked
    · rw [servicesPass2, if_pos hl]
      exact pass2_err_none (fun x hx => hall x (List.mem_cons_of_mem s hx))
    · rw [servicesPass2, if_neg hl]
      cases hsp : s.spec.ports with
      | none => exact absurd hsp (hall s (List.mem_cons_self s rest))
      | some sps =>
        simpa using pass2_err_none (fun x hx => hall x (List.mem_cons_of_mem s hx))

/-! ### Ingress resolver lemmas -/

theorem ingressRulesEdges_total {ing_id ns : String} :
    ∀ {rules : List IngressRule}, (∀ rule ∈ rules, rule.http ≠ none) →
      ingressRulesEdges ing_id ns rules =
        (rules.flatMap (fun rule => (rule.http.getD ⟨[]⟩).paths.map (fun p =>
          ⟨ing_id, nodeId "Service" ns p.backend.service.name, p.path⟩)), none)
  | [], _ => rfl
  | rule :: rest, hall => by
    cases hh : rule.http with
    | none => exact absurd hh (hall rule (List.mem_cons_self rule rest))
    | some http =>
      rw [ingressRulesEdges, hh,
        ingressRulesEdges_total (fun r hr => hall r (List.mem_cons_of_mem rule hr))]
      simp [hh]

theorem link_ingresses_total :
    ∀ {ingresses : List Ingress},
      (∀ ing ∈ ingresses, ∀ rule ∈ ing.spec.rules.getD [], rule.http ≠ none) →
      link_ingresses_to_services ingresses = (ingressEdgesSpec ingresses, none)
  | [], _ => rfl
  | ing :: rest, hall => by
    rw [link_ingresses_to_services,
      ingressRulesEdges_total (hall ing (List.mem_cons_self ing rest)),
      link_ingresses_total (fun i hi => hall i (List.mem_cons_of_mem ing hi))]
    simp [ingressEdgesSpec]

theorem mem_ingressRulesEdges_elim {e : Edge} {ing_id ns : String} :
    ∀ {rules : List IngressRule}, e ∈ (ingressRulesEdges ing_id ns rules).1 →
      ∃ rule ∈ rules, ∃ http, rule.http = some http ∧ ∃ p ∈ http.paths,
        e = Edge.mk ing_id (nodeId "Service" ns p.backend.service.name) p.path
  | [], h => absurd h (List.not_mem_nil e)
  | rule :: rest, h => by
    cases hh : rule.http with
    | none =>
      rw [ingressRulesEdges, hh] at h
      exact absurd h (List.not_mem_nil e)
    | some http =>
      rw [ingressRulesEdges, hh] at h
      simp only [List.mem_append, List.mem_map] at h
      rcases h with ⟨p, hp, rfl⟩ | hrec
      · exact ⟨rule, List.mem_cons_self rule rest, http, hh, p, hp, rfl⟩
      · obtain ⟨r, hr, http2, hh2, p, hp, he⟩ := mem_ingressRulesEdges_elim hrec
        exact ⟨r, List.mem_cons_of_mem rule hr, http2, hh2, p, hp, he⟩

theorem mem_link_ingresses_elim {e : Edge} :
    ∀ {ingresses : List Ingress}, e ∈ (link_ingresses_to_services ingresses).1 →
      ∃ ing ∈ ingresses,
        e ∈ (ingressRulesEdges (ingressId ing) ing.metadata.ns (ing.spec.rules.getD [])).1
  | [], h => absurd h (List.not_mem_nil e)
  | ing :: rest, h => by
    rw [link_ingresses_to_services] at h
    cases herr : (ingressRulesEdges (ingressId ing) ing.metadata.ns (ing.spec.rules.getD [])).2 with
    | some msg =>
      rw [herr] at h
      exact ⟨ing, List.mem_cons_self ing rest, h⟩
    | none =>
      rw [herr] at h
      simp only [List.mem_append] at h
      rcases h with hmem | hrec
      · exact ⟨ing, List.mem_cons_self ing rest, hmem⟩
      · obtain ⟨i, hi, hmem⟩ := mem_link_ingresses_elim hrec
        exact ⟨i, List.mem_cons_of_mem ing hi, hmem⟩

/-! ### Materializer lemmas -/

theorem materialize_ids (snap : Snapshot) :
    (materialize snap).map (fun node => node.id) =
      (snapRefs snap).map (fun r => nodeId r.1 r.2.ns r.2.name) := by
  simp [materialize, snapRefs, add_nodes, Function.comp_def]

theorem snapRefs_kind_mem {snap : Snapshot} {r : String × Meta} (h : r ∈ snapRefs snap) :
    r.1 ∈ ["Deployment", "StatefulSet", "DaemonSet", "Pod",
           "Service", "Ingress", "Job", "CronJob"] := by
  simp only [snapRefs, List.mem_append, List.mem_map] at h
  rcases h with ((((((⟨o, _, rfl⟩ | ⟨o, _, rfl⟩) | ⟨o, _, rfl⟩) | ⟨o, _, rfl⟩) |
    ⟨o, _, rfl⟩) | ⟨o, _, rfl⟩) | ⟨o, _, rfl⟩) | ⟨o, _, rfl⟩ <;> simp

theorem snapRefs_kind_no_hyphen {snap : Snapshot} {r : String × Meta}
    (h : r ∈ snapRefs snap) : '-' ∉ r.1.data := by
  have h8 := snapRefs_kind_mem h
  simp only [List.mem_cons, List.not_mem_nil, or_false] at h8
  rcases h8 with h1 | h1 | h1 | h1 | h1 | h1 | h1 | h1 <;> (rw [h1]; decide)

/-! ### CronJob resolver lemmas -/

theorem mem_link_cronjobs_of {jobs : List Job} {cronjobs : List CronJob} {job : Job}
    {owner : OwnerRef} (hj : job ∈ jobs)
    (ho : owner ∈ job.metadata.owner_references.getD []) (hk : owner.kind = "CronJob")
    (hex : ∃ cj ∈ cronjobs, cj.metadata.uid = owner.uid) :
    ∃ cj ∈ cronjobs, cj.metadata.uid = owner.uid ∧
      Edge.mk (cronJobId cj) (jobId job) "schedule" ∈ link_cronjobs_to_jobs jobs cronjobs := by
  obtain ⟨cj0, hcj0, huid0⟩ := hex
  have hmem : (owner.uid, cronJobId cj0) ∈ cronIds cronjobs := by
    simp only [cronIds, List.mem_map]
    exact ⟨cj0, hcj0, by rw [huid0]⟩
  obtain ⟨cid, hcid⟩ := dictGet_isSome_of_mem hmem
  have hpair := dictGet_mem hcid
  simp only [cronIds, List.mem_map] at hpair
  obtain ⟨cj, hcj, hpc⟩ := hpair
  have huid : cj.metadata.uid = owner.uid := (Prod.mk.injEq _ _ _ _).mp hpc |>.1
  have hid : cronJobId cj = cid := (Prod.mk.injEq _ _ _ _).mp hpc |>.2
  refine ⟨cj, hcj, huid, ?_⟩
  simp only [link_cronjobs_to_jobs, List.mem_flatMap]
  refine ⟨job, hj, ?_⟩
  simp only [cronEdgesForJob, List.mem_filterMap]
  refine ⟨owner, ho, ?_⟩
  rw [if_pos (by simp [hk]), hcid, hid]

theorem mem_link_cronjobs_elim {jobs : List Job} {cronjobs : List CronJob} {e : Edge}
    (h : e ∈ link_cronjobs_to_jobs jobs cronjobs) :
    ∃ job ∈ jobs, ∃ owner ∈ job.metadata.owner_references.getD [],
      owner.kind = "CronJob" ∧ ∃ cj ∈ cronjobs, cj.metadata.uid = owner.uid ∧
        e = Edge.mk (cronJobId cj) (jobId job) "schedule" := by
  simp only [link_cronjobs_to_jobs, List.mem_flatMap, cronEdgesForJob,
    List.mem_filterMap] at h
  obtain ⟨job, hj, owner, ho, hsome⟩ := h
  by_cases hk : owner.kind == "CronJob"
  · rw [if_pos hk] at hsome
    cases hd : dictGet (cronIds cronjobs) owner.uid with
    | none => rw [hd] at hsome; simp at hsome
    | some cid =>
      rw [hd] at hsome
      have hpair := dictGet_mem hd
      simp only [cronIds, List.mem_map] at hpair
      obtain ⟨cj, hcj, hpc⟩ := hpair
      have huid : cj.metadata.uid = owner.uid := (Prod.mk.injEq _ _ _ _).mp hpc |>.1
      have hid : cronJobId cj = cid := (Prod.mk.injEq _ _ _ _).mp hpc |>.2
      exact ⟨job, hj, owner, ho, by simpa using hk, cj, hcj, huid,
        by rw [← Option.some_inj.mp hsome, hid]⟩
  · rw [if_neg hk] at hsome
    simp at hsome

/-! ### Owner resolver lemmas -/

theorem mem_link_owner_elim {pods : List Pod} {owner_kind label pfx : String} {e : Edge}
    (h : e ∈ link_owner_to_pods pods owner_kind label pfx) :
    ∃ pod ∈ pods, ∃ owner ∈ pod.metadata.owner_references.getD [],
      owner.kind = owner_kind ∧
      e = Edge.mk (if owner_kind ≠ "Job"
                   then nodeId pfx pod.metadata.ns (stripGeneratedSuffix owner.name)
                   else nodeId pfx pod.metadata.ns owner.name) (podId pod) label := by
  simp only [link_owner_to_pods, List.mem_flatMap, ownerEdgesForPod,
    List.mem_filterMap] at h
  obtain ⟨pod, hp, owner, ho, hsome⟩ := h
  by_cases hk : owner.kind == owner_kind
  · rw [if_pos hk] at hsome
    refine ⟨pod, hp, owner, ho, by simpa using hk, ?_⟩
    rw [← Option.some_inj.mp hsome]
    by_cases hj : owner_kind != "Job" <;> simp_all
  · rw [if_neg hk] at hsome
    simp at hsome

theorem mem_link_owner_of {pods : List Pod} (owner_kind label pfx : String)
    {pod : Pod} {owner : OwnerRef} (hp : pod ∈ pods)
    (ho : owner ∈ pod.metadata.owner_references.getD []) (hk : owner.kind = owner_kind) :
    Edge.mk (if owner_kind ≠ "Job"
             then nodeId pfx pod.metadata.ns (stripGeneratedSuffix owner.name)
             else nodeId pfx pod.metadata.ns owner.name) (podId pod) label
      ∈ link_owner_to_pods pods owner_kind label pfx := by
  simp only [link_owner_to_pods, List.mem_flatMap, ownerEdgesForPod, List.mem_filterMap]
  refine ⟨pod, hp, owner, ho, ?_⟩
  rw [if_pos (by simp [hk])]
  by_cases hj : owner_kind != "Job" <;> simp_all

/-! ### Claims -/

/-- C2: for every Pod and every OwnerLink on it whose kind equals the
resolver's target kind, the resolver emits an edge from the computed owner id
to the Pod's id with the given label: with target kind `Job` (called with
prefix `Job` in `main`) the owner id is `nodeId Job ns ownerName`, name used
exactly; with any other target kind the last hyphen-delimited segment of the
owner name is stripped and the prefix override is the kind component.  A Pod
with no matching OwnerLink contributes no edge. -/
theorem owner_resolution_ids (pods : List Pod) (owner_kind label pfx : String) :
    (∀ pod ∈ pods, ∀ owner ∈ pod.metadata.owner_references.getD [],
      owner.kind = "Job" →
        Edge.mk (nodeId "Job" pod.metadata.ns owner.name) (podId pod) label
          ∈ link_owner_to_pods pods "Job" label "Job")
    ∧ (owner_kind ≠ "Job" →
      ∀ pod ∈ pods, ∀ owner ∈ pod.metadata.owner_references.getD [],
        owner.kind = owner_kind →
          Edge.mk (nodeId pfx pod.metadata.ns (stripGeneratedSuffix owner.name))
              (podId pod) label
            ∈ link_owner_to_pods pods owner_kind label pfx)
    ∧ nodeId "Deployment" "ns" (stripGeneratedSuffix "web-7d8f9c9b6") = "Deployment-ns/web"
    ∧ (∀ pod, (∀ owner ∈ pod.metadata.owner_references.getD [], owner.kind ≠ owner_kind) →
      ownerEdgesForPod owner_kind label pfx pod = []) := by
  refine ⟨?_, ?_, by decide, ?_⟩
  · intro pod hp owner ho hk
    have h := mem_link_owner_of "Job" label "Job" hp ho hk
    simpa using h
  · intro hnj pod hp owner ho hk
    have h := mem_link_owner_of owner_kind label pfx hp ho hk
    rwa [if_pos hnj] at h
  · intro pod hnone
    simp only [ownerEdgesForPod, List.filterMap_eq_nil_iff]
    intro owner ho
    rw [if_neg (by simpa using hnone owner ho)]

/-- C2 witness: the spec's §8 examples — ReplicaSet owner `web-7d8f9c9b6`
resolves to `Deployment-ns/web`, Job owner `backup-job` resolves without
stripping, and a bare Pod contributes nothing. -/
theorem owner_resolution_ids_witness :
    Edge.mk (nodeId "Deployment" "ns" (stripGeneratedSuffix "web-7d8f9c9b6"))
        (podId wPodRS) "replica"
      ∈ link_owner_to_pods [wPodRS] "ReplicaSet" "replica" "Deployment"
    ∧ Edge.mk (nodeId "Job" "ns" "backup-job") (podId wPodJob) "job"
      ∈ link_owner_to_pods [wPodJob] "Job" "job" "Job"
    ∧ ownerEdgesForPod "ReplicaSet" "replica" "Deployment" wPodBare = [] :=
  ⟨(owner_resolution_ids [wPodRS] "ReplicaSet" "replica" "Deployment").2.1 (by decide)
      wPodRS (by simp) ⟨"ReplicaSet", "web-7d8f9c9b6", "u8"⟩ (by simp [wPodRS]) rfl,
   (owner_resolution_ids [wPodJob] "Job" "job" "Job").1
      wPodJob (by simp) ⟨"Job", "backup-job", "u10"⟩ (by simp [wPodJob]) rfl,
   (owner_resolution_ids [] "ReplicaSet" "replica" "Deployment").2.2.2
      wPodBare (by simp [wPodBare, plainMeta])⟩

/-- C9: an OwnerLink of a non-Job target kind whose name contains no hyphen
strips to the empty name, so the emitted from-id is `<prefix>-<namespace>/`;
such an id cannot equal the id of any materialized resource with a nonempty
name (given slash-free namespaces and a hyphen-free prefix). -/
theorem owner_no_hyphen_empty_owner_name (pods : List Pod) (owner_kind label pfx : String)
    (pod : Pod) (hp : pod ∈ pods) (owner : OwnerRef)
    (ho : owner ∈ pod.metadata.owner_references.getD [])
    (hk : owner.kind = owner_kind) (hnj : owner_kind ≠ "Job")
    (hh : '-' ∉ owner.name.data) :
    Edge.mk (nodeId pfx pod.metadata.ns "") (podId pod) label
      ∈ link_owner_to_pods pods owner_kind label pfx
    ∧ nodeId pfx pod.metadata.ns "" = pfx ++ "-" ++ pod.metadata.ns ++ "/"
    ∧ ∀ (snap : Snapshot), '-' ∉ pfx.data → '/' ∉ pod.metadata.ns.data →
        ∀ r ∈ snapRefs snap, '/' ∉ r.2.ns.data → r.2.name ≠ "" →
          nodeId pfx pod.metadata.ns "" ≠ nodeId r.1 r.2.ns r.2.name := by
  refine ⟨?_, ?_, ?_⟩
  · have h := mem_link_owner_of owner_kind label pfx hp ho hk
    rw [if_pos hnj, stripGeneratedSuffix_no_hyphen hh] at h
    exact h
  · simp [nodeId]
  · intro snap hpfx hns r hr hrns hrname heq
    exact hrname ((nodeId_inj hpfx (snapRefs_kind_no_hyphen hr) hns hrns heq).2.2).symm

/-- C9 witness: a StatefulSet OwnerLink named `web` (no hyphen) yields the
dangling id `StatefulSet-ns/`, distinct from every node id of the sample
snapshot. -/
theorem owner_no_hyphen_empty_owner_name_witness :
    Edge.mk (nodeId "StatefulSet" "ns" "") (podId wPodNoHyphen) "replica"
      ∈ link_owner_to_pods [wPodNoHyphen] "StatefulSet" "replica" "StatefulSet"
    ∧ nodeId "StatefulSet" "ns" "" = "StatefulSet" ++ "-" ++ "ns" ++ "/"
    ∧ ∀ r ∈ snapRefs wSnap, '/' ∉ r.2.ns.data → r.2.name ≠ "" →
        nodeId "StatefulSet" "ns" "" ≠ nodeId r.1 r.2.ns r.2.name := by
  have h := owner_no_hyphen_empty_owner_name [wPodNoHyphen] "StatefulSet" "replica"
    "StatefulSet" wPodNoHyphen (by simp) ⟨"StatefulSet", "web", "u13"⟩
    (by simp [wPodNoHyphen]) rfl (by decide) (by decide)
  exact ⟨h.1, h.2.1, fun r hr => h.2.2 wSnap (by decide) (by decide) r hr⟩

/-- C6: for every Ingress, rule and HTTP path entry the resolver emits
exactly one edge, from the Ingress id to
`nodeId Service (ingress namespace) (backend service name)`, labeled with the
literal path string — the code's output equals the spec-side transcription
`ingressEdgesSpec`, which consults no Service collection, so the edge exists
whether or not the referenced Service does. -/
theorem ingress_path_edges (ingresses : List Ingress)
    (hall : ∀ ing ∈ ingresses, ∀ rule ∈ ing.spec.rules.getD [], rule.http ≠ none) :
    link_ingresses_to_services ingresses = (ingressEdgesSpec ingresses, none) :=
  link_ingresses_total hall

/-- C6 witness: the two path entries `/api -> api-svc` and `/web -> web-svc`
of the sample Ingress each produce exactly one edge with the literal path
label. -/
theorem ingress_path_edges_witness :
    link_ingresses_to_services [wIng] = (ingressEdgesSpec [wIng], none)
    ∧ ingressEdgesSpec [wIng] =
      [Edge.mk "Ingress-ns/i1" "Service-ns/api-svc" "/api",
       Edge.mk "Ingress-ns/i1" "Service-ns/web-svc" "/web"] :=
  ⟨ingress_path_edges [wIng] (by decide), by decide⟩

/-- C7: the CronJob resolver emits an edge `schedule` from a CronJob's node
id to a Job's node id exactly when an OwnerLink of kind CronJob on the Job
carries the uid of some CronJob of the snapshot; a Job all of whose CronJob
OwnerLinks carry unknown uids contributes no edge. -/
theorem cronjob_uid_resolution (jobs : List Job) (cronjobs : List CronJob) :
    (∀ job ∈ jobs, ∀ owner ∈ job.metadata.owner_references.getD [],
      owner.kind = "CronJob" → (∃ cj ∈ cronjobs, cj.metadata.uid = owner.uid) →
      ∃ cj ∈ cronjobs, cj.metadata.uid = owner.uid ∧
        Edge.mk (cronJobId cj) (jobId job) "schedule" ∈ link_cronjobs_to_jobs jobs cronjobs)
    ∧ (∀ e ∈ link_cronjobs_to_jobs jobs cronjobs,
      ∃ job ∈ jobs, ∃ owner ∈ job.metadata.owner_references.getD [],
        owner.kind = "CronJob" ∧ ∃ cj ∈ cronjobs, cj.metadata.uid = owner.uid ∧
          e = Edge.mk (cronJobId cj) (jobId job) "schedule")
    ∧ (∀ job, (∀ owner ∈ job.metadata.owner_references.getD [],
        owner.kind = "CronJob" → ∀ cj ∈ cronjobs, cj.metadata.uid ≠ owner.uid) →
      cronEdgesForJob (cronIds cronjobs) job = []) := by
  refine ⟨fun job hj owner ho hk hex => mem_link_cronjobs_of hj ho hk hex,
    fun e he => mem_link_cronjobs_elim he, ?_⟩
  intro job hnone
  simp only [cronEdgesForJob, List.filterMap_eq_nil_iff]
  intro owner ho
  by_cases hk : owner.kind == "CronJob"
  · rw [if_pos hk]
    have hd : dictGet (cronIds cronjobs) owner.uid = none := by
      rw [dictGet_eq_none_iff]
      intro p hp
      simp only [cronIds, List.mem_map] at hp
      obtain ⟨cj, hcj, rfl⟩ := hp
      exact hnone owner ho (by simpa using hk) cj hcj
    rw [hd]
  · rw [if_neg hk]

/-- C7 witness: CronJob `nightly` (uid `cj-uid-1`) is linked to its owned
Job; the Job whose CronJob OwnerLink uid `cj-uid-9` matches nothing
contributes no edge. -/
theorem cronjob_uid_resolution_witness :
    (∃ cj ∈ [wCron], cj.metadata.uid = "cj-uid-1" ∧
      Edge.mk (cronJobId cj) (jobId wJobOwned) "schedule"
        ∈ link_cronjobs_to_jobs [wJobOwned] [wCron])
    ∧ cronEdgesForJob (cronIds [wCron]) wJobOrphan = [] :=
  ⟨(cronjob_uid_resolution [wJobOwned] [wCron]).1 wJobOwned (by simp)
      ⟨"CronJob", "nightly", "cj-uid-1"⟩ (by simp [wJobOwned]) rfl
      ⟨wCron, by simp, rfl⟩,
   (cronjob_uid_resolution [wJobOwned] [wCron]).2.2 wJobOrphan (by decide)⟩

/-- C10: a named (string) target port is never equal to a numeric container
port, so a Service whose target ports are all named produces no fallback
edge to any Pod. -/
theorem named_target_ports_no_fallback (svc : Service) (pods : List Pod)
    (sps : List ServicePort) (_hp : svc.spec.ports = some sps)
    (hnamed : ∀ q ∈ sps, ∃ s, q.target_port = PortRef.named s) :
    (∀ n : Nat, PortRef.num n ∉ sps.map (fun q => q.target_port))
    ∧ fallbackEdgesForService svc (sps.map (fun q => q.target_port)) pods = [] := by
  have hnum : ∀ n : Nat, PortRef.num n ∉ sps.map (fun q => q.target_port) := by
    intro n hmem
    simp only [List.mem_map] at hmem
    obtain ⟨q, hq, heq⟩ := hmem
    obtain ⟨s, hs⟩ := hnamed q hq
    rw [hs] at heq
    exact PortRef.noConfusion heq
  refine ⟨hnum, List.eq_nil_iff_forall_not_mem.mpr ?_⟩
  intro e he
  obtain ⟨pod, _, _, ⟨c, _, q, _, hport⟩, _⟩ := mem_fallbackEdges_iff.mp he
  exact hnum q.container_port hport

/-- C10 witness: the Service whose only target port is the named port
`"http"` produces no fallback edge against a Pod exposing port 8080. -/
theorem named_target_ports_no_fallback_witness :
    (∀ n : Nat, PortRef.num n ∉ [ServicePort.mk (PortRef.named "http")].map
        (fun q => q.target_port))
    ∧ fallbackEdgesForService wSvcNamed
        ([ServicePort.mk (PortRef.named "http")].map (fun q => q.target_port))
        [wPodA, wPodB] = [] :=
  named_target_ports_no_fallback wSvcNamed [wPodA, wPodB]
    [ServicePort.mk (PortRef.named "http")] rfl
    (fun q hq => by
      rw [List.mem_singleton.mp hq]
      exact ⟨"http", rfl⟩)

/-- C1: Service-to-Pod resolution is two-pass and mutually exclusive per
Service: every Service with a non-empty selector gets a `svc` edge to every
same-namespace Pod whose labels cover it (pass 1); and a Service matched by
at least one Pod in pass 1 produces no port-fallback edges in pass 2, even
if its ports numerically match other pods. -/
theorem svc_two_pass_mutually_exclusive (services : List Service) (pods : List Pod)
    (svc : Service) (hs : svc ∈ services) :
    (∀ pod ∈ pods, pod.metadata.ns = svc.metadata.ns →
      svc.spec.selector.getD [] ≠ [] →
      (∀ kv ∈ svc.spec.selector.getD [],
        dictGet (pod.metadata.labels.getD []) kv.1 = some kv.2) →
      Edge.mk (svcId svc) (podId pod) "svc" ∈ (link_services_to_pods services pods).1)
    ∧ (svcMatched svc pods = true →
      (∀ s ∈ services, svcId s = svcId svc → s = svc) →
      ∀ e ∈ (servicesPass2 services (servicesPass1 services pods).2 pods).1,
        e.src ≠ svcId svc) := by
  constructor
  · intro pod hpod hns hsel hmatch
    have hm : podMatchesSelector svc pod = true := by
      simp only [podMatchesSelector, selectorMatches, Bool.and_eq_true, beq_iff_eq,
        Bool.not_eq_true', List.all_eq_true]
      refine ⟨hns, ?_, fun kv hkv => by simpa using hmatch kv hkv⟩
      cases hc : svc.spec.selector.getD [] with
      | nil => exact absurd hc hsel
      | cons a l => rfl
    have h1 := mem_pass1_edges_of hs hpod hm
    simp only [link_services_to_pods, List.mem_append]
    exact Or.inl h1
  · intro hmatched hid e he hsrc
    obtain ⟨svc2, hsvc2, hnl, sps, hsps, hfall⟩ := mem_pass2_elim he
    obtain ⟨pod, _, _, _, rfl⟩ := mem_fallbackEdges_iff.mp hfall
    have : svc2 = svc := hid svc2 hsvc2 hsrc
    subst this
    exact hnl (mem_pass1_linked.mpr ⟨hsvc2, hmatched⟩)

/-- C1 witness: the selector `app=x` Service is linked to the matching Pod
in pass 1 and, although its target port 8080 also matches that Pod's
container port, pass 2 emits no edge from it. -/
theorem svc_two_pass_mutually_exclusive_witness :
    Edge.mk (svcId wSvcSel) (podId wPodA) "svc"
      ∈ (link_services_to_pods [wSvcSel] [wPodA, wPodB]).1
    ∧ ∀ e ∈ (servicesPass2 [wSvcSel] (servicesPass1 [wSvcSel] [wPodA, wPodB]).2
        [wPodA, wPodB]).1, e.src ≠ svcId wSvcSel := by
  have h := svc_two_pass_mutually_exclusive [wSvcSel] [wPodA, wPodB] wSvcSel (by simp)
  exact ⟨h.1 wPodA (by simp) (by decide) (by decide)
      (by intro kv hkv; simp only [wSvcSel, plainMeta] at hkv; fin_cases hkv; decide),
    h.2 (by decide) (by intro s hso; simpa using fun h2 => (List.mem_singleton.mp hso))⟩

/-- C5: a Service that pass 1 left unlinked (empty selector or selector
matching no Pod) whose target ports contain numeric port `p` gets a `svc`
edge to every same-namespace Pod declaring container port `p`, and no edge
to any Pod of a different namespace, whatever ports it declares. -/
theorem svc_port_fallback (services : List Service) (pods : List Pod)
    (svc : Service) (hs : svc ∈ services)
    (hall : ∀ s ∈ services, s.spec.ports ≠ none)
    (hnm : svcMatched svc pods = false)
    (sps : List ServicePort) (hp : svc.spec.ports = some sps) (p : Nat)
    (hport : PortRef.num p ∈ sps.map (fun q => q.target_port)) :
    (∀ pod ∈ pods, pod.metadata.ns = svc.metadata.ns →
      (∃ c ∈ pod.spec.containers, ∃ cp ∈ c.ports.getD [], cp.container_port = p) →
      Edge.mk (svcId svc) (podId pod) "svc" ∈ (link_services_to_pods services pods).1)
    ∧ (∀ pod ∈ pods, pod.metadata.ns ≠ svc.metadata.ns →
      (∀ q ∈ pods, podId q = podId pod → q = pod) →
      (∀ s ∈ services, svcId s = svcId svc → s = svc) →
      Edge.mk (svcId svc) (podId pod) "svc" ∉ (link_services_to_pods services pods).1) := by
  have hnl : svc ∉ (servicesPass1 services pods).2 := by
    intro hmem
    rw [(mem_pass1_linked.mp hmem).2] at hnm
    exact Bool.noConfusion hnm
  constructor
  · intro pod hpod hns ⟨c, hc, cp, hcp, hcport⟩
    have hfall : Edge.mk (svcId svc) (podId pod) "svc"
        ∈ fallbackEdgesForService svc (sps.map (fun q => q.target_port)) pods := by
      rw [mem_fallbackEdges_iff]
      exact ⟨pod, hpod, hns, ⟨c, hc, cp, hcp, by rw [hcport]; exact hport⟩, rfl⟩
    have h2 := mem_pass2_of hall hs hnl hp hfall
    simp only [link_services_to_pods, List.mem_append]
    exact Or.inr h2
  · intro pod hpod hne hpid hsid hmem
    simp only [link_services_to_pods, List.mem_append] at hmem
    rcases hmem with h1 | h2
    · obtain ⟨svc2, hsvc2, pod2, hpod2, hm2, heq⟩ := mem_pass1_edges_elim h1
      have hsrc : svcId svc2 = svcId svc := (congrArg Edge.src heq).symm
      have hsvc : svc2 = svc := hsid svc2 hsvc2 hsrc
      subst hsvc
      have : svcMatched svc2 pods = true := List.any_eq_true.mpr ⟨pod2, hpod2, hm2⟩
      rw [this] at hnm
      exact Bool.noConfusion hnm
    · obtain ⟨svc2, hsvc2, _, sps2, _, hfall⟩ := mem_pass2_elim h2
      obtain ⟨pod2, hpod2, hns2, _, heq⟩ := mem_fallbackEdges_iff.mp hfall
      have hsrc : svcId svc2 = svcId svc := (congrArg Edge.src heq).symm
      have hsvc : svc2 = svc := hsid svc2 hsvc2 hsrc
      subst hsvc
      have hdst : podId pod2 = podId pod := (congrArg Edge.dst heq).symm
      have : pod2 = pod := hpid pod2 hpod2 hdst
      subst this
      exact hne (hns2 ▸ rfl)

/-- C5 witness: the selector-less Service with target port 8080 links to the
same-namespace Pod exposing 8080 and not to the Pod of namespace `other`
exposing the same port. -/
theorem svc_port_fallback_witness :
    Edge.mk (svcId wSvcPort) (podId wPodA) "svc"
      ∈ (link_services_to_pods [wSvcPort] [wPodA, wPodB]).1
    ∧ Edge.mk (svcId wSvcPort) (podId wPodB) "svc"
      ∉ (link_services_to_pods [wSvcPort] [wPodA, wPodB]).1 := by
  have h := svc_port_fallback [wSvcPort] [wPodA, wPodB] wSvcPort (by simp)
    (by intro s hso; rw [List.mem_singleton.mp hso]; decide) (by decide)
    [⟨.num 8080⟩] rfl 8080 (by decide)
  exact ⟨h.1 wPodA (by simp) (by decide)
      ⟨⟨some [⟨8080⟩]⟩, by decide, ⟨8080⟩, by decide, rfl⟩,
    h.2 wPodB (by simp) (by decide)
      (by intro q hq; fin_cases hq <;> decide)
      (by intro s hso; rw [List.mem_singleton.mp hso]; intro _; rfl)⟩

/-- C3 counterexample: the resolvers are not total on all absent optional
fields — a Service whose `spec.ports` is absent makes the Service resolver
raise a `TypeError` in pass 2, and an Ingress rule whose `http` block is
absent makes the Ingress resolver raise an `AttributeError`, even though
selector, labels and owner references are absent too and the relevant
collections are otherwise empty. -/
theorem resolver_absent_fields_counterexample :
    (link_services_to_pods [wSvcNoPorts] []).2 ≠ none
    ∧ (link_ingresses_to_services [wIngNoHttp]).2 ≠ none := by
  exact ⟨by decide, by decide⟩

/-- C3 amended: absent selector, owner references, labels, ingress rules and
container-port lists are treated as empty collections; provided additionally
that every Service carries a ports list and every Ingress rule an HTTP
block, all resolvers complete without raising (the owner and CronJob
resolvers are total by construction). -/
theorem resolvers_total_when_ports_http_present (services : List Service)
    (pods : List Pod) (ingresses : List Ingress)
    (hp : ∀ svc ∈ services, svc.spec.ports ≠ none)
    (hh : ∀ ing ∈ ingresses, ∀ rule ∈ ing.spec.rules.getD [], rule.http ≠ none) :
    (link_services_to_pods services pods).2 = none
    ∧ (link_ingresses_to_services ingresses).2 = none := by
  constructor
  · simp only [link_services_to_pods]
    exact pass2_err_none hp
  · rw [link_ingresses_total hh]

/-- C3 amended witness: a snapshot where every optional metadata field is
absent but ports lists and HTTP blocks are present resolves without error. -/
theorem resolvers_total_when_ports_http_present_witness :
    (link_services_to_pods [wSvcPort, wSvcNamed] [wPodBare]).2 = none
    ∧ (link_ingresses_to_services [wIng]).2 = none :=
  resolvers_total_when_ports_http_present [wSvcPort, wSvcNamed] [wPodBare] [wIng]
    (by intro s hso; rcases List.mem_cons.mp hso with rfl | hso2
        · decide
        · rw [List.mem_singleton.mp hso2]; decide)
    (by intro i hi; rw [List.mem_singleton.mp hi]; decide)

/-- C4 counterexample: namespace isolation fails for the CronJob resolver —
a Job in namespace `nsb` carrying the uid of a CronJob living in `nsa`
produces the edge `CronJob-nsa/cj -> Job-nsb/j1`, whose endpoint namespaces
differ. -/
theorem namespace_isolation_counterexample :
    ¬ (∀ e ∈ allLinkEdges xSnapCross, idNamespace e.src = idNamespace e.dst) := by
  decide

/-- C4 amended: no resolver emits an edge whose endpoints parse to two
different namespaces, provided every CronJob-kind OwnerLink on a Job whose
uid matches a known CronJob refers to a CronJob of the Job's own namespace
(the owner, Service and Ingress resolvers need no such proviso). -/
theorem namespace_isolation_same_ns_cron_owners (snap : Snapshot)
    (hcj : ∀ job ∈ snap.jobs, ∀ owner ∈ job.metadata.owner_references.getD [],
      owner.kind = "CronJob" → ∀ cj ∈ snap.cronjobs, cj.metadata.uid = owner.uid →
        cj.metadata.ns = job.metadata.ns) :
    ∀ e ∈ allLinkEdges snap, idNamespace e.src = idNamespace e.dst := by
  have howner : ∀ (k l pfx : String), '-' ∉ pfx.data →
      ∀ e ∈ link_owner_to_pods snap.pods k l pfx,
        idNamespace e.src = idNamespace e.dst := by
    intro k l pfx hpfx e he
    obtain ⟨pod, _, owner, _, _, rfl⟩ := mem_link_owner_elim he
    by_cases hj : k ≠ "Job"
    · rw [if_pos hj]
      exact idNamespace_nodeId_eq pod.metadata.ns _ _ hpfx (by decide)
    · rw [if_neg hj]
      exact idNamespace_nodeId_eq pod.metadata.ns _ _ hpfx (by decide)
  intro e he
  simp only [allLinkEdges, List.mem_append] at he
  rcases he with ((((((h | h) | h) | h) | h) | h) | h)
  · exact howner "ReplicaSet" "replica" "Deployment" (by decide) e h
  · exact howner "StatefulSet" "replica" "StatefulSet" (by decide) e h
  · exact howner "DaemonSet" "daemon" "DaemonSet" (by decide) e h
  · exact howner "Job" "job" "Job" (by decide) e h
  · simp only [link_services_to_pods, List.mem_append] at h
    rcases h with h1 | h2
    · obtain ⟨svc, _, pod, _, hm, rfl⟩ := mem_pass1_edges_elim h1
      have hns : pod.metadata.ns = svc.metadata.ns := by
        simp only [podMatchesSelector, Bool.and_eq_true, beq_iff_eq] at hm
        exact hm.1
      simp only [svcId, podId, hns]
      exact idNamespace_nodeId_eq svc.metadata.ns _ _ (by decide) (by decide)
    · obtain ⟨svc, _, _, sps, _, hfall⟩ := mem_pass2_elim h2
      obtain ⟨pod, _, hns, _, rfl⟩ := mem_fallbackEdges_iff.mp hfall
      simp only [svcId, podId, hns]
      exact idNamespace_nodeId_eq svc.metadata.ns _ _ (by decide) (by decide)
  · obtain ⟨ing, _, hmem⟩ := mem_link_ingresses_elim h
    obtain ⟨rule, _, http, _, p, _, rfl⟩ := mem_ingressRulesEdges_elim hmem
    simp only [ingressId]
    exact idNamespace_nodeId_eq ing.metadata.ns _ _ (by decide) (by decide)
  · obtain ⟨job, hjob, owner, ho, hk, cj, hcjm, huid, rfl⟩ := mem_link_cronjobs_elim h
    have hns : cj.metadata.ns = job.metadata.ns := hcj job hjob owner ho hk cj hcjm huid
    simp only [cronJobId, jobId, hns]
    exact idNamespace_nodeId_eq job.metadata.ns _ _ (by decide) (by decide)

/-- C4 amended witness: on the sample snapshot (whose only CronJob-owned Job
lives in the CronJob's namespace) the emitted CronJob edge is
namespace-homogeneous. -/
theorem namespace_isolation_same_ns_cron_owners_witness :
    idNamespace (Edge.mk (cronJobId wCron) (jobId wJobOwned) "schedule").src
      = idNamespace (Edge.mk (cronJobId wCron) (jobId wJobOwned) "schedule").dst :=
  namespace_isolation_same_ns_cron_owners wSnap (by decide)
    (Edge.mk (cronJobId wCron) (jobId wJobOwned) "schedule") (by decide)

/-- C8 counterexample: `nodeId` is not injective over snapshots with merely
unique `(kind, namespace, name)` triples — the two Pods `("a", "b/c")` and
`("a/b", "c")` have distinct triples yet both materialize with node id
`Pod-a/b/c`. -/
theorem node_id_injectivity_counterexample :
    ((snapRefs xSnapSlash).map (fun r => (r.1, r.2.ns, r.2.name))).Nodup
    ∧ ¬ ((materialize xSnapSlash).map (fun node => node.id)).Nodup := by
  exact ⟨by decide, by decide⟩

/-- C8 amended: over a snapshot whose `(kind, namespace, name)` triples are
unique and whose namespaces contain no slash, the materializer emits exactly
one node per resource and the node ids are pairwise distinct. -/
theorem materializer_unique_nodes (snap : Snapshot)
    (hns : ∀ r ∈ snapRefs snap, '/' ∉ r.2.ns.data)
    (huniq : ((snapRefs snap).map (fun r => (r.1, r.2.ns, r.2.name))).Nodup) :
    (materialize snap).length = (snapRefs snap).length
    ∧ ((materialize snap).map (fun node => node.id)).Nodup := by
  constructor
  · simp [materialize, snapRefs, add_nodes]
  · rw [materialize_ids]
    have huniq2 : (snapRefs snap).Pairwise
        (fun a b => (a.1, a.2.ns, a.2.name) ≠ (b.1, b.2.ns, b.2.name)) :=
      List.pairwise_map.mp huniq
    have hne : (snapRefs snap).Pairwise
        (fun a b => nodeId a.1 a.2.ns a.2.name ≠ nodeId b.1 b.2.ns b.2.name) := by
      refine huniq2.imp_of_mem ?_
      intro a b ha hb hab heq
      obtain ⟨h1, h2, h3⟩ := nodeId_inj (snapRefs_kind_no_hyphen ha)
        (snapRefs_kind_no_hyphen hb) (hns a ha) (hns b hb) heq
      exact hab (by rw [h1, h2, h3])
    exact List.pairwise_map.mpr hne

/-- C8 amended witness: the sample snapshot has unique triples, slash-free
namespaces, one node per resource and pairwise distinct node ids. -/
theorem materializer_unique_nodes_witness :
    (materialize wSnap).length = (snapRefs wSnap).length
    ∧ ((materialize wSnap).map (fun node => node.id)).Nodup :=
  materializer_unique_nodes wSnap (by decide) (by decide)

end K8sGraph
